import Mathlib

/-!
Shallow embedding of the temporal metrics derivation and idempotent load
pipeline of the EOD-GPT repository.

Sources embedded:
* `PriceMetrics.calculateHistoricalMetrics` (the as-of join between daily
  prices and quarterly statements, the TTM aggregation, the ratio and
  enterprise-value rules, for both the US and the international path);
* `PriceMetrics.hydrateAllData` (the per-security error catch and the
  per-batch collection of rows);
* `PriceMetricsDataManager.mergeTempTableToMainTable` (the staging merge
  keyed on (ticker, date) with full non-key-column overwrite).

JS numbers are modelled as `Rat`; optionally-absent numeric fields as
`Option Rat`; dates as `Int` (only their ordering matters).  JS truthiness
of a numeric field (`undefined`, `null` and `0` are falsy) and the
`x || y` defaulting idiom are modelled explicitly.  Wall-clock metadata
(`lastUpdated = new Date()`) is kept abstract: it does not appear in the
derivation row type, and is an opaque `Int` column in the merge row type.
-/

/-- JS `x || d` on an optionally-absent number: the value when present and
non-zero (truthy), otherwise the default `d`. -/
def jsOrD (o : Option Rat) (d : Rat) : Rat :=
  match o with
  | some v => if v = 0 then d else v
  | none => d

/-- One quarterly statement row (`QuarterlyFinancialsModel` document), with
the fields read by `calculateHistoricalMetrics`.  `date` is the effective
(report) date. -/
structure Quarter where
  date : Int
  commonStockSharesOutstanding : Option Rat
  netIncome : Option Rat
  totalRevenue : Option Rat
  totalStockholderEquity : Option Rat
  longTermDebt : Option Rat
  shortTermDebt : Option Rat
  shortLongTermDebt : Option Rat
  cashAndShortTermInvestments : Option Rat
  cash : Option Rat
deriving DecidableEq, Repr

/-- One `InternationalStock` shares-outstanding record.  The schema declares
the field with `default: 0`, but a raw document may lack it, so it is kept
optional; the code only checks JS truthiness. -/
structure SharesRecord where
  date : Int
  commonStockSharesOutstanding : Option Rat
deriving DecidableEq, Repr

/-- One daily price observation as returned by `getHistoricalPriceData`
(close price, volume, date already standardized to market close). -/
structure PricePoint where
  date : Int
  price : Rat
  volume : Rat
deriving DecidableEq, Repr

/-- One derived metrics row (`IPriceMetrics`), without the wall-clock
`lastUpdated` metadata field. -/
structure MetricsRow where
  ticker : String
  symbol : String
  date : Int
  price : Rat
  volume : Rat
  marketCap : Rat
  peRatioTTM : Option Rat
  psRatioTTM : Option Rat
  pbRatioTTM : Option Rat
  enterpriseValue : Option Rat
  isInternational : Bool
deriving DecidableEq, Repr

/-- JS `array.slice(-n)`: the last `min n (length)` elements. -/
def takeLast {α : Type} (n : Nat) (l : List α) : List α :=
  l.drop (l.length - n)

/-- The quarters reported on or before the price date
(`allQuarters.filter((q) => q.date <= priceData.date)`). -/
def availableQuarters (allQuarters : List Quarter) (d : Int) : List Quarter :=
  allQuarters.filter (fun q => decide (q.date ≤ d))

/-- The international-path forward scan: track the most recent shares record
with date at most the price date, breaking at the first record dated after
it (`for ... { if (sharesData.date <= priceData.date) closest = sharesData;
else break }`). -/
def closestSharesData : List SharesRecord → Int → Option SharesRecord
  | [], _ => none
  | s :: rest, d =>
    if s.date ≤ d then
      match closestSharesData rest d with
      | some r => some r
      | none => some s
    else none

/-- The TTM window: the last up-to-4 available quarters
(`availableQuarters.slice(-4)`). -/
def ttmQuartersOf (avail : List Quarter) : List Quarter :=
  takeLast 4 avail

/-- Sum of `netIncome || 0` over the TTM window
(`ttmQuarters.reduce((sum, q) => sum + (q.netIncome || 0), 0)`). -/
def sumNetIncome (ttm : List Quarter) : Rat :=
  ttm.foldl (fun sum q => sum + jsOrD q.netIncome 0) 0

/-- Sum of `totalRevenue || 0` over the TTM window. -/
def sumTotalRevenue (ttm : List Quarter) : Rat :=
  ttm.foldl (fun sum q => sum + jsOrD q.totalRevenue 0) 0

/-- The partial-period scaling factor
(`quartersAvailable > 0 ? 4 / quartersAvailable : 0`). -/
def scaleFactor (quartersAvailable : Nat) : Rat :=
  if quartersAvailable > 0 then 4 / (quartersAvailable : Rat) else 0

/-- `ttmNetIncome = sumNetIncome * scaleFactor`. -/
def ttmNetIncome (ttm : List Quarter) : Rat :=
  sumNetIncome ttm * scaleFactor ttm.length

/-- `ttmTotalRevenue = sumTotalRevenue * scaleFactor`. -/
def ttmTotalRevenue (ttm : List Quarter) : Rat :=
  sumTotalRevenue ttm * scaleFactor ttm.length

/-- `totalDebt = (longTermDebt || 0) + (shortTermDebt || 0) +
(shortLongTermDebt || 0)` on the latest quarter. -/
def totalDebt (q : Quarter) : Rat :=
  jsOrD q.longTermDebt 0 + jsOrD q.shortTermDebt 0 + jsOrD q.shortLongTermDebt 0

/-- The enterprise-value cash term
(`cashAndShortTermInvestments || cash || 0`). -/
def cashTerm (q : Quarter) : Rat :=
  jsOrD q.cashAndShortTermInvestments (jsOrD q.cash 0)

/-- Whether any of the five debt/cash fields is present (`!== undefined`)
on the latest quarter, triggering the enterprise-value computation. -/
def evTrigger (q : Quarter) : Bool :=
  q.longTermDebt.isSome || q.shortTermDebt.isSome || q.shortLongTermDebt.isSome ||
    q.cashAndShortTermInvestments.isSome || q.cash.isSome

/-- Build the US metrics row for one price point, given the available
quarters, the latest quarter and its (truthy) shares outstanding.  Mirrors
lines 240–303 of the US branch. -/
def buildUSRow (ticker : String) (avail : List Quarter) (latestQuarter : Quarter)
    (sharesOutstanding : Rat) (priceData : PricePoint) : MetricsRow :=
  let marketCap := priceData.price * sharesOutstanding
  let ttm := ttmQuartersOf avail
  let ni := ttmNetIncome ttm
  let rev := ttmTotalRevenue ttm
  { ticker := ticker
    symbol := ticker
    date := priceData.date
    price := priceData.price
    volume := priceData.volume
    marketCap := marketCap
    peRatioTTM := if ni > 0 then some (marketCap / ni) else none
    psRatioTTM := if rev > 0 then some (marketCap / rev) else none
    pbRatioTTM :=
      match latestQuarter.totalStockholderEquity with
      | some e => if e > 0 then some (marketCap / e) else none
      | none => none
    enterpriseValue :=
      if evTrigger latestQuarter then
        some (marketCap + totalDebt latestQuarter - cashTerm latestQuarter)
      else none
    isInternational := false }

/-- The per-price-point US derivation: filter to available quarters, take
the latest, gate on truthy shares outstanding, then build the row; `none`
models `continue`. -/
def usRow (ticker : String) (allQuarters : List Quarter) (priceData : PricePoint) :
    Option MetricsRow :=
  let avail := availableQuarters allQuarters priceData.date
  match avail.getLast? with
  | none => none
  | some latestQuarter =>
    match latestQuarter.commonStockSharesOutstanding with
    | none => none
    | some sharesOutstanding =>
      if sharesOutstanding = 0 then none
      else some (buildUSRow ticker avail latestQuarter sharesOutstanding priceData)

/-- The per-price-point international derivation: as-of scan for the shares
record, gate on truthy shares outstanding, emit the market-cap-only row. -/
def intlRow (ticker : String) (intlStockData : List SharesRecord)
    (priceData : PricePoint) : Option MetricsRow :=
  match closestSharesData intlStockData priceData.date with
  | none => none
  | some closest =>
    match closest.commonStockSharesOutstanding with
    | none => none
    | some sh =>
      if sh = 0 then none
      else
        some
          { ticker := ticker
            symbol := ticker
            date := priceData.date
            price := priceData.price
            volume := priceData.volume
            marketCap := priceData.price * sh
            peRatioTTM := none
            psRatioTTM := none
            pbRatioTTM := none
            enterpriseValue := none
            isInternational := true }

/-- The pure core of `PriceMetrics.calculateHistoricalMetrics`: the fetched
price points, international shares records and quarterly statements are
passed in (the source fetches them and sorts ascending by date). -/
def calculateHistoricalMetrics (ticker : String) (isInternational : Bool)
    (priceDataPoints : List PricePoint) (intlStockData : List SharesRecord)
    (allQuarters : List Quarter) : List MetricsRow :=
  if priceDataPoints.isEmpty then []
  else if isInternational then
    if intlStockData.isEmpty then []
    else priceDataPoints.filterMap (intlRow ticker intlStockData)
  else
    if allQuarters.isEmpty then []
    else priceDataPoints.filterMap (usRow ticker allQuarters)

/-! ### Generic lemmas about the as-of selection -/

/-- In a list sorted ascending by `f`, the last element is a member and is
maximal among all members. -/
theorem getLast?_sorted_spec {α : Type} (f : α → Int) :
    ∀ (l : List α), l.Pairwise (fun a b => f a ≤ f b) →
      ∀ q, l.getLast? = some q → q ∈ l ∧ ∀ r ∈ l, f r ≤ f q := by
  intro l
  induction l with
  | nil => intro _ q hq; simp at hq
  | cons x xs ih =>
    intro hp q hq
    rcases List.pairwise_cons.mp hp with ⟨hhead, htail⟩
    cases xs with
    | nil =>
      simp only [List.getLast?_singleton, Option.some.injEq] at hq
      subst hq
      exact ⟨List.mem_singleton.mpr rfl, by intro r hr; rw [List.mem_singleton.mp hr]⟩
    | cons y ys =>
      rw [List.getLast?_cons_cons] at hq
      rcases ih htail q hq with ⟨hmem, hmax⟩
      refine ⟨List.mem_cons_of_mem x hmem, ?_⟩
      intro r hr
      rcases List.mem_cons.mp hr with hr | hr
      · exact hr ▸ hhead q hmem
      · exact hmax r hr

/-- Full specification of the international forward scan on a sorted list:
the returned record is the member with the largest date at most `d`, and
`none` is returned exactly when every record is dated after `d`. -/
theorem closestSharesData_spec (d : Int) :
    ∀ (l : List SharesRecord), l.Pairwise (fun a b => a.date ≤ b.date) →
      (∀ s, closestSharesData l d = some s →
        s ∈ l ∧ s.date ≤ d ∧ ∀ r ∈ l, r.date ≤ d → r.date ≤ s.date)
      ∧ (closestSharesData l d = none → ∀ r ∈ l, d < r.date) := by
  intro l
  induction l with
  | nil =>
    intro _
    refine ⟨?_, ?_⟩
    · intro s hs; simp [closestSharesData] at hs
    · intro _ r hr; simp at hr
  | cons x xs ih =>
    intro hp
    rcases List.pairwise_cons.mp hp with ⟨hhead, htail⟩
    rcases ih htail with ⟨ihSome, ihNone⟩
    by_cases hd : x.date ≤ d
    · refine ⟨?_, ?_⟩
      · intro s hs
        rw [closestSharesData, if_pos hd] at hs
        cases hrec : closestSharesData xs d with
        | some r =>
          rw [hrec] at hs
          injection hs with h
          subst h
          rcases ihSome r hrec with ⟨hmem, hle, hmax⟩
          refine ⟨List.mem_cons_of_mem x hmem, hle, ?_⟩
          intro t ht htd
          rcases List.mem_cons.mp ht with ht | ht
          · exact ht ▸ hhead r hmem
          · exact hmax t ht htd
        | none =>
          rw [hrec] at hs
          injection hs with h
          subst h
          refine ⟨List.mem_cons_self x xs, hd, ?_⟩
          intro t ht htd
          rcases List.mem_cons.mp ht with ht | ht
          · exact le_of_eq (congrArg SharesRecord.date ht)
          · exact absurd htd (not_le.mpr (ihNone hrec t ht))
      · intro hnone
        rw [closestSharesData, if_pos hd] at hnone
        cases hrec : closestSharesData xs d with
        | some r => rw [hrec] at hnone; cases hnone
        | none => rw [hrec] at hnone; cases hnone
    · refine ⟨?_, ?_⟩
      · intro s hs
        rw [closestSharesData, if_neg hd] at hs
        cases hs
      · intro _ r hr
        rcases List.mem_cons.mp hr with hr | hr
        · exact hr ▸ not_le.mp hd
        · exact lt_of_lt_of_le (not_le.mp hd) (hhead r hr)

/-- Membership of the value returned by `getLast?`. -/
theorem mem_of_getLast?_some {α : Type} {l : List α} {a : α}
    (h : l.getLast? = some a) : a ∈ l := by
  have h' : a ∈ l.getLast? := h
  rcases List.mem_getLast?_eq_getLast h' with ⟨hne, ha⟩
  exact ha ▸ List.getLast_mem hne

/-- The record selected by the international scan is never dated after the
price date, with no sortedness assumption. -/
theorem closestSharesData_le (d : Int) :
    ∀ (l : List SharesRecord) (s : SharesRecord),
      closestSharesData l d = some s → s.date ≤ d := by
  intro l
  induction l with
  | nil => intro s hs; simp [closestSharesData] at hs
  | cons x xs ih =>
    intro s hs
    by_cases hd : x.date ≤ d
    · rw [closestSharesData, if_pos hd] at hs
      cases hrec : closestSharesData xs d with
      | some r =>
        rw [hrec] at hs
        injection hs with h
        subst h
        exact ih r hrec
      | none =>
        rw [hrec] at hs
        injection hs with h
        subst h
        exact hd
    · rw [closestSharesData, if_neg hd] at hs
      cases hs

/-! ### Concrete fixtures used by the witnesses -/

/-- Example quarter dated 10 with every ratio input present. -/
def exQ1 : Quarter :=
  { date := 10, commonStockSharesOutstanding := some 100, netIncome := some 10,
    totalRevenue := some 50, totalStockholderEquity := some 200,
    longTermDebt := some 20, shortTermDebt := none, shortLongTermDebt := none,
    cashAndShortTermInvestments := some 0, cash := some 5 }

/-- Example quarter dated 20, the latest one at price date 25. -/
def exQ2 : Quarter :=
  { date := 20, commonStockSharesOutstanding := some 100, netIncome := some 12,
    totalRevenue := some 60, totalStockholderEquity := some 210,
    longTermDebt := some 25, shortTermDebt := some 3, shortLongTermDebt := none,
    cashAndShortTermInvestments := some 7, cash := some 4 }

/-- Example quarter dated 30 whose shares-outstanding figure is zero. -/
def exQ3 : Quarter :=
  { date := 30, commonStockSharesOutstanding := some 0, netIncome := some 15,
    totalRevenue := some 70, totalStockholderEquity := some 220,
    longTermDebt := some 25, shortTermDebt := some 3, shortLongTermDebt := none,
    cashAndShortTermInvestments := some 7, cash := some 4 }

/-- Example price point at date 25. -/
def exP : PricePoint := { date := 25, price := 50, volume := 1000 }

/-- Shares record for the spec's foreign-security example (2023-01-01,
1,000,000 shares). -/
def exS1 : SharesRecord :=
  { date := 20230101, commonStockSharesOutstanding := some 1000000 }

/-- Price point for the spec's foreign-security example (2023-03-15,
price 12.50). -/
def exPIntl : PricePoint := { date := 20230315, price := 25 / 2, volume := 300 }

/-- C1: as-of join correctness.  For statements sorted ascending by
effective date, the statement used for price date `d` (US path: filter then
take last; international path: forward scan with early break) is the record
with the largest effective date at most `d`; when every record is dated
after `d` (or there are none), no record is selected and the price date is
skipped (`usRow`/`intlRow` return `none`). -/
theorem asOfJoin_correct (d : Int) (qs : List Quarter) (ls : List SharesRecord)
    (hqs : qs.Pairwise (fun a b => a.date ≤ b.date))
    (hls : ls.Pairwise (fun a b => a.date ≤ b.date)) :
    (∀ q, (availableQuarters qs d).getLast? = some q →
        q ∈ qs ∧ q.date ≤ d ∧ ∀ r ∈ qs, r.date ≤ d → r.date ≤ q.date)
    ∧ ((availableQuarters qs d).getLast? = none → ∀ r ∈ qs, d < r.date)
    ∧ (∀ s, closestSharesData ls d = some s →
        s ∈ ls ∧ s.date ≤ d ∧ ∀ r ∈ ls, r.date ≤ d → r.date ≤ s.date)
    ∧ (closestSharesData ls d = none → ∀ r ∈ ls, d < r.date)
    ∧ (∀ t p, p.date = d → (availableQuarters qs d).getLast? = none →
        usRow t qs p = none)
    ∧ (∀ t p, p.date = d → closestSharesData ls d = none →
        intlRow t ls p = none) := by
  have hfp : (availableQuarters qs d).Pairwise (fun a b => a.date ≤ b.date) :=
    hqs.sublist (List.filter_sublist qs)
  refine ⟨?_, ?_, (closestSharesData_spec d ls hls).1,
    (closestSharesData_spec d ls hls).2, ?_, ?_⟩
  · intro q hq
    rcases getLast?_sorted_spec (fun q => q.date) _ hfp q hq with ⟨hmem, hmax⟩
    rcases List.mem_filter.mp hmem with ⟨hqs', hdec⟩
    refine ⟨hqs', of_decide_eq_true hdec, ?_⟩
    intro r hr hrd
    exact hmax r (List.mem_filter.mpr ⟨hr, decide_eq_true hrd⟩)
  · intro hnone r hr
    have hnil : availableQuarters qs d = [] := List.getLast?_eq_none_iff.mp hnone
    have := List.filter_eq_nil_iff.mp hnil r hr
    simpa using this
  · intro t p hpd hnone
    subst hpd
    simp [usRow, hnone]
  · intro t p hpd hnone
    subst hpd
    simp [intlRow, hnone]

/-- Witness for C1 at a concrete sorted statement list and price date. -/
theorem asOfJoin_correct_witness :
    ([exQ1, exQ2, exQ3].Pairwise (fun a b => a.date ≤ b.date))
    ∧ (exQ2 ∈ [exQ1, exQ2, exQ3] ∧ exQ2.date ≤ 25 ∧
        ∀ r ∈ [exQ1, exQ2, exQ3], r.date ≤ 25 → r.date ≤ exQ2.date) :=
  ⟨by decide,
    (asOfJoin_correct 25 [exQ1, exQ2, exQ3] [exS1] (by decide) (by decide)).1
      exQ2 (by decide)⟩

/-- C4: no look-ahead.  Whatever record the as-of selection returns (US
filter-then-last or international scan), its effective date is at most the
price date, and so is the date of every quarter in the TTM window feeding
the income/revenue sums; a statement dated after the price date is never
used.  No sortedness is assumed. -/
theorem no_look_ahead (qs : List Quarter) (ls : List SharesRecord) (d : Int) :
    (∀ q, (availableQuarters qs d).getLast? = some q → q.date ≤ d)
    ∧ (∀ q ∈ ttmQuartersOf (availableQuarters qs d), q.date ≤ d)
    ∧ (∀ s, closestSharesData ls d = some s → s.date ≤ d) := by
  refine ⟨?_, ?_, fun s hs => closestSharesData_le d ls s hs⟩
  · intro q hq
    have hmem := mem_of_getLast?_some hq
    rcases List.mem_filter.mp hmem with ⟨_, hdec⟩
    exact of_decide_eq_true hdec
  · intro q hq
    have hmem : q ∈ availableQuarters qs d := List.mem_of_mem_drop hq
    rcases List.mem_filter.mp hmem with ⟨_, hdec⟩
    exact of_decide_eq_true hdec

/-- Witness for C4 at a concrete statement list, shares list and date. -/
theorem no_look_ahead_witness :
    ((availableQuarters [exQ1, exQ2, exQ3] 25).getLast? = some exQ2 ∧
      exQ2.date ≤ 25)
    ∧ (closestSharesData [exS1] 20230315 = some exS1 ∧ exS1.date ≤ 20230315) :=
  ⟨⟨by decide, (no_look_ahead [exQ1, exQ2, exQ3] [exS1] 25).1 exQ2 (by decide)⟩,
    ⟨by decide,
      (no_look_ahead [exQ1, exQ2, exQ3] [exS1] 20230315).2.2 exS1 (by decide)⟩⟩

/-- C3: TTM scaling.  The TTM window is a suffix of the available quarters
of length `min 4 countAvailable ≥ 1`; `ttmNetIncome` equals
`(4 / countAvailable) ×` the sum of `netIncome || 0` over the window (a
missing `netIncome` contributes 0 without reducing the quarter count), and
`ttmTotalRevenue` is computed identically from `totalRevenue`; with exactly
4 quarters the TTM figure is the raw sum, and with exactly 1 quarter it is
4× that quarter's figure. -/
theorem ttm_scaling (qs : List Quarter) (d : Int) (ttm : List Quarter) (n : Nat)
    (hne : availableQuarters qs d ≠ [])
    (httm : ttm = ttmQuartersOf (availableQuarters qs d))
    (hn : n = ttm.length) :
    List.IsSuffix ttm (availableQuarters qs d)
    ∧ n = min 4 (availableQuarters qs d).length
    ∧ 1 ≤ n
    ∧ ttmNetIncome ttm = (4 / (n : Rat)) * sumNetIncome ttm
    ∧ ttmTotalRevenue ttm = (4 / (n : Rat)) * sumTotalRevenue ttm
    ∧ (n = 4 → ttmNetIncome ttm = sumNetIncome ttm
        ∧ ttmTotalRevenue ttm = sumTotalRevenue ttm)
    ∧ (∀ q, ttm = [q] → ttmNetIncome ttm = 4 * jsOrD q.netIncome 0
        ∧ ttmTotalRevenue ttm = 4 * jsOrD q.totalRevenue 0) := by
  subst httm
  have hlen : (ttmQuartersOf (availableQuarters qs d)).length
      = min 4 (availableQuarters qs d).length := by
    have hpos : 0 < (availableQuarters qs d).length := List.length_pos.mpr hne
    simp only [ttmQuartersOf, takeLast, List.length_drop]
    omega
  have hone : 1 ≤ n := by
    have hpos : 0 < (availableQuarters qs d).length := List.length_pos.mpr hne
    omega
  refine ⟨List.drop_suffix _ _, by omega, hone, ?_, ?_, ?_, ?_⟩
  · rw [ttmNetIncome, scaleFactor,
      if_pos (show (ttmQuartersOf (availableQuarters qs d)).length > 0 by omega),
      ← hn]
    exact mul_comm _ _
  · rw [ttmTotalRevenue, scaleFactor,
      if_pos (show (ttmQuartersOf (availableQuarters qs d)).length > 0 by omega),
      ← hn]
    exact mul_comm _ _
  · intro h4
    have hl4 : (ttmQuartersOf (availableQuarters qs d)).length = 4 := by omega
    constructor
    · rw [ttmNetIncome, scaleFactor, hl4]
      norm_num
    · rw [ttmTotalRevenue, scaleFactor, hl4]
      norm_num
  · intro q hq
    rw [hq]
    constructor
    · simp [ttmNetIncome, sumNetIncome, scaleFactor]
      ring
    · simp [ttmTotalRevenue, sumTotalRevenue, scaleFactor]
      ring

/-- Witness for C3 at two available quarters at price date 25. -/
theorem ttm_scaling_witness :
    (availableQuarters [exQ1, exQ2, exQ3] 25 ≠ [])
    ∧ 1 ≤ 2
    ∧ ttmNetIncome (ttmQuartersOf (availableQuarters [exQ1, exQ2, exQ3] 25))
        = (4 / ((2 : Nat) : Rat))
          * sumNetIncome (ttmQuartersOf (availableQuarters [exQ1, exQ2, exQ3] 25)) :=
  ⟨by decide,
    (ttm_scaling [exQ1, exQ2, exQ3] 25 _ 2 (by decide) rfl (by decide)).2.2.1,
    (ttm_scaling [exQ1, exQ2, exQ3] 25 _ 2 (by decide) rfl (by decide)).2.2.2.1⟩

/-- C5: ratio absence invariant.  In every emitted US row, each ratio field
equals market cap divided by its denominator exactly when that denominator
is strictly positive, and is absent otherwise; a ratio is never emitted
when its denominator is non-positive or missing. -/
theorem ratio_absence_rule (t : String) (qs : List Quarter) (p : PricePoint)
    (row : MetricsRow) (h : usRow t qs p = some row) :
    ∃ latest, (availableQuarters qs p.date).getLast? = some latest
      ∧ (row.peRatioTTM =
          if ttmNetIncome (ttmQuartersOf (availableQuarters qs p.date)) > 0
          then some (row.marketCap
            / ttmNetIncome (ttmQuartersOf (availableQuarters qs p.date)))
          else none)
      ∧ (row.psRatioTTM =
          if ttmTotalRevenue (ttmQuartersOf (availableQuarters qs p.date)) > 0
          then some (row.marketCap
            / ttmTotalRevenue (ttmQuartersOf (availableQuarters qs p.date)))
          else none)
      ∧ (∀ e, latest.totalStockholderEquity = some e →
          row.pbRatioTTM = if e > 0 then some (row.marketCap / e) else none)
      ∧ (ttmNetIncome (ttmQuartersOf (availableQuarters qs p.date)) ≤ 0 →
          row.peRatioTTM = none)
      ∧ (ttmTotalRevenue (ttmQuartersOf (availableQuarters qs p.date)) ≤ 0 →
          row.psRatioTTM = none)
      ∧ (∀ e, latest.totalStockholderEquity = some e → e ≤ 0 →
          row.pbRatioTTM = none)
      ∧ (latest.totalStockholderEquity = none → row.pbRatioTTM = none) := by
  cases hL : (availableQuarters qs p.date).getLast? with
  | none => rw [usRow] at h; rw [hL] at h; cases h
  | some latest =>
    refine ⟨latest, rfl, ?_⟩
    rw [usRow] at h
    simp only [hL] at h
    cases hsh : latest.commonStockSharesOutstanding with
    | none => simp only [hsh] at h; cases h
    | some sh =>
      simp only [hsh] at h
      by_cases hz : sh = 0
      · rw [if_pos hz] at h; cases h
      · rw [if_neg hz] at h
        injection h with h
        subst h
        refine ⟨rfl, rfl, ?_, ?_, ?_, ?_, ?_⟩
        · intro e he
          simp only [buildUSRow, he]
        · intro hle
          simp only [buildUSRow]
          rw [if_neg (not_lt.mpr hle)]
        · intro hle
          simp only [buildUSRow]
          rw [if_neg (not_lt.mpr hle)]
        · intro e he hle
          simp only [buildUSRow, he]
          rw [if_neg (not_lt.mpr hle)]
        · intro he
          simp only [buildUSRow, he]

/-- Witness for C5: a concrete emitted row with all three denominators
positive. -/
theorem ratio_absence_rule_witness :
    usRow "T" [exQ1, exQ2, exQ3] exP
        = some (buildUSRow "T" [exQ1, exQ2] exQ2 100 exP)
    ∧ ∃ latest, (availableQuarters [exQ1, exQ2, exQ3] exP.date).getLast?
          = some latest
        ∧ ((buildUSRow "T" [exQ1, exQ2] exQ2 100 exP).peRatioTTM =
            if ttmNetIncome (ttmQuartersOf
                (availableQuarters [exQ1, exQ2, exQ3] exP.date)) > 0
            then some ((buildUSRow "T" [exQ1, exQ2] exQ2 100 exP).marketCap
              / ttmNetIncome (ttmQuartersOf
                (availableQuarters [exQ1, exQ2, exQ3] exP.date)))
            else none)
        ∧ ((buildUSRow "T" [exQ1, exQ2] exQ2 100 exP).psRatioTTM =
            if ttmTotalRevenue (ttmQuartersOf
                (availableQuarters [exQ1, exQ2, exQ3] exP.date)) > 0
            then some ((buildUSRow "T" [exQ1, exQ2] exQ2 100 exP).marketCap
              / ttmTotalRevenue (ttmQuartersOf
                (availableQuarters [exQ1, exQ2, exQ3] exP.date)))
            else none)
        ∧ (∀ e, latest.totalStockholderEquity = some e →
            (buildUSRow "T" [exQ1, exQ2] exQ2 100 exP).pbRatioTTM =
              if e > 0
              then some ((buildUSRow "T" [exQ1, exQ2] exQ2 100 exP).marketCap / e)
              else none)
        ∧ (ttmNetIncome (ttmQuartersOf
              (availableQuarters [exQ1, exQ2, exQ3] exP.date)) ≤ 0 →
            (buildUSRow "T" [exQ1, exQ2] exQ2 100 exP).peRatioTTM = none)
        ∧ (ttmTotalRevenue (ttmQuartersOf
              (availableQuarters [exQ1, exQ2, exQ3] exP.date)) ≤ 0 →
            (buildUSRow "T" [exQ1, exQ2] exQ2 100 exP).psRatioTTM = none)
        ∧ (∀ e, latest.totalStockholderEquity = some e → e ≤ 0 →
            (buildUSRow "T" [exQ1, exQ2] exQ2 100 exP).pbRatioTTM = none)
        ∧ (latest.totalStockholderEquity = none →
            (buildUSRow "T" [exQ1, exQ2] exQ2 100 exP).pbRatioTTM = none) :=
  ⟨by rfl,
    ratio_absence_rule "T" [exQ1, exQ2, exQ3] exP
      (buildUSRow "T" [exQ1, exQ2] exQ2 100 exP) (by rfl)⟩

/-- C6: enterprise-value trigger and defaulting.  An emitted US row carries
`enterpriseValue = marketCap + totalDebt − cashTerm` (each absent debt
field contributing 0) exactly when at least one of the five debt/cash
fields is present on the latest usable statement; when none is present the
field is absent, not `marketCap`. -/
theorem ev_trigger_defaulting (t : String) (qs : List Quarter) (p : PricePoint)
    (row : MetricsRow) (h : usRow t qs p = some row) :
    ∃ latest, (availableQuarters qs p.date).getLast? = some latest
      ∧ (evTrigger latest = true ↔
          (latest.longTermDebt.isSome ∨ latest.shortTermDebt.isSome ∨
            latest.shortLongTermDebt.isSome ∨
            latest.cashAndShortTermInvestments.isSome ∨ latest.cash.isSome))
      ∧ (evTrigger latest = true →
          row.enterpriseValue
            = some (row.marketCap + totalDebt latest - cashTerm latest))
      ∧ (evTrigger latest = false → row.enterpriseValue = none) := by
  cases hL : (availableQuarters qs p.date).getLast? with
  | none => rw [usRow] at h; rw [hL] at h; cases h
  | some latest =>
    refine ⟨latest, rfl, ?_⟩
    rw [usRow] at h
    simp only [hL] at h
    cases hsh : latest.commonStockSharesOutstanding with
    | none => simp only [hsh] at h; cases h
    | some sh =>
      simp only [hsh] at h
      by_cases hz : sh = 0
      · rw [if_pos hz] at h; cases h
      · rw [if_neg hz] at h
        injection h with h
        subst h
        refine ⟨?_, ?_, ?_⟩
        · simp [evTrigger, Bool.or_eq_true]
          tauto
        · intro htr
          simp only [buildUSRow, htr]
          rfl
        · intro htr
          simp only [buildUSRow, htr]
          rfl

/-- Witness for C6: a concrete emitted row whose latest quarter carries
debt/cash fields, so the trigger fires. -/
theorem ev_trigger_defaulting_witness :
    usRow "T" [exQ1, exQ2, exQ3] exP
        = some (buildUSRow "T" [exQ1, exQ2] exQ2 100 exP)
    ∧ ∃ latest, (availableQuarters [exQ1, exQ2, exQ3] exP.date).getLast?
          = some latest
        ∧ (evTrigger latest = true ↔
            (latest.longTermDebt.isSome ∨ latest.shortTermDebt.isSome ∨
              latest.shortLongTermDebt.isSome ∨
              latest.cashAndShortTermInvestments.isSome ∨ latest.cash.isSome))
        ∧ (evTrigger latest = true →
            (buildUSRow "T" [exQ1, exQ2] exQ2 100 exP).enterpriseValue
              = some ((buildUSRow "T" [exQ1, exQ2] exQ2 100 exP).marketCap
                  + totalDebt latest - cashTerm latest))
        ∧ (evTrigger latest = false →
            (buildUSRow "T" [exQ1, exQ2] exQ2 100 exP).enterpriseValue = none) :=
  ⟨by rfl,
    ev_trigger_defaulting "T" [exQ1, exQ2, exQ3] exP
      (buildUSRow "T" [exQ1, exQ2] exQ2 100 exP) (by rfl)⟩

/-- C9: implicit shares-outstanding gate.  If the as-of-selected record has
a missing or zero shares-outstanding figure, no row is emitted for that
price date, on both the US and the international path — regardless of what
earlier statements carry. -/
theorem shares_gate (t : String) (qs : List Quarter) (ls : List SharesRecord)
    (p : PricePoint) :
    (∀ latest, (availableQuarters qs p.date).getLast? = some latest →
      (latest.commonStockSharesOutstanding = none ∨
        latest.commonStockSharesOutstanding = some 0) →
      usRow t qs p = none)
    ∧ (∀ s, closestSharesData ls p.date = some s →
      (s.commonStockSharesOutstanding = none ∨
        s.commonStockSharesOutstanding = some 0) →
      intlRow t ls p = none) := by
  constructor
  · intro latest hL hsh
    rw [usRow]
    simp only [hL]
    rcases hsh with hsh | hsh
    · simp [hsh]
    · simp [hsh]
  · intro s hS hsh
    rw [intlRow, hS]
    rcases hsh with hsh | hsh
    · simp [hsh]
    · simp [hsh]

/-- Witness for C9: at price date 35 the latest quarter (`exQ3`) has zero
shares outstanding although the earlier quarters carry a positive figure,
and no row is emitted. -/
theorem shares_gate_witness :
    ((availableQuarters [exQ1, exQ2, exQ3] 35).getLast? = some exQ3
      ∧ exQ3.commonStockSharesOutstanding = some 0
      ∧ exQ1.commonStockSharesOutstanding = some 100
      ∧ usRow "T" [exQ1, exQ2, exQ3] { date := 35, price := 50, volume := 7 }
          = none)
    ∧ (closestSharesData [{ date := 1, commonStockSharesOutstanding := some 0 }]
          35 = some { date := 1, commonStockSharesOutstanding := some 0 }
      ∧ intlRow "T" [{ date := 1, commonStockSharesOutstanding := some 0 }]
          { date := 35, price := 50, volume := 7 } = none) :=
  ⟨⟨by decide, by decide, by decide,
    (shares_gate "T" [exQ1, exQ2, exQ3] [exS1]
        { date := 35, price := 50, volume := 7 }).1 exQ3 (by decide)
      (Or.inr (by decide))⟩,
    ⟨by decide,
      (shares_gate "T" [exQ1, exQ2, exQ3]
          [{ date := 1, commonStockSharesOutstanding := some 0 }]
          { date := 35, price := 50, volume := 7 }).2
        { date := 1, commonStockSharesOutstanding := some 0 } (by decide)
        (Or.inr (by decide))⟩⟩

/-- C10: implicit enterprise-value cash fallback.  The cash term is
`cashAndShortTermInvestments` when present and non-zero, else `cash` when
present and non-zero, else 0; in particular a present-but-zero
`cashAndShortTermInvestments` falls back to a positive `cash`. -/
theorem cash_fallback (q : Quarter) :
    (∀ c, q.cashAndShortTermInvestments = some c → c ≠ 0 → cashTerm q = c)
    ∧ (∀ c, q.cash = some c → c ≠ 0 →
        (q.cashAndShortTermInvestments = none ∨
          q.cashAndShortTermInvestments = some 0) →
        cashTerm q = c)
    ∧ ((q.cashAndShortTermInvestments = none ∨
          q.cashAndShortTermInvestments = some 0) →
        (q.cash = none ∨ q.cash = some 0) → cashTerm q = 0)
    ∧ (∀ c, q.cashAndShortTermInvestments = some 0 → q.cash = some c →
        0 < c → cashTerm q = c) := by
  refine ⟨?_, ?_, ?_, ?_⟩
  · intro c hc hnz
    simp [cashTerm, jsOrD, hc, hnz]
  · intro c hc hnz hcsti
    rcases hcsti with hcsti | hcsti
    · simp [cashTerm, jsOrD, hc, hnz, hcsti]
    · simp [cashTerm, jsOrD, hc, hnz, hcsti]
  · intro hcsti hcash
    rcases hcsti with hcsti | hcsti <;> rcases hcash with hcash | hcash <;>
      simp [cashTerm, jsOrD, hcsti, hcash]
  · intro c hcsti hcash hpos
    simp [cashTerm, jsOrD, hcsti, hcash, ne_of_gt hpos]

/-- Witness for C10: `cashAndShortTermInvestments` present and zero, `cash`
present and positive: the positive cash value is subtracted. -/
theorem cash_fallback_witness :
    exQ1.cashAndShortTermInvestments = some 0 ∧ exQ1.cash = some 5
      ∧ (0 : Rat) < 5 ∧ cashTerm exQ1 = 5 :=
  ⟨by decide, by decide, by decide,
    (cash_fallback exQ1).2.2.2 5 (by decide) (by decide) (by decide)⟩

/-- C7: foreign-listed rows.  For an international security, a price date
with an applicable shares record (effective date at most the price date,
shares non-zero) yields a row whose market cap is price × shares and whose
four ratio fields are all absent; such a row is emitted by
`calculateHistoricalMetrics` on the international path. -/
theorem foreign_rows (t : String) (ls : List SharesRecord) (qs : List Quarter)
    (p : PricePoint) (s : SharesRecord) (v : Rat)
    (hfind : closestSharesData ls p.date = some s)
    (hv : s.commonStockSharesOutstanding = some v) (hnz : v ≠ 0) :
    intlRow t ls p = some
      { ticker := t, symbol := t, date := p.date, price := p.price,
        volume := p.volume, marketCap := p.price * v, peRatioTTM := none,
        psRatioTTM := none, pbRatioTTM := none, enterpriseValue := none,
        isInternational := true }
    ∧ ∀ pricePoints, p ∈ pricePoints →
        ({ ticker := t, symbol := t, date := p.date, price := p.price,
           volume := p.volume, marketCap := p.price * v, peRatioTTM := none,
           psRatioTTM := none, pbRatioTTM := none, enterpriseValue := none,
           isInternational := true } : MetricsRow)
          ∈ calculateHistoricalMetrics t true pricePoints ls qs := by
  have h1 : intlRow t ls p = some
      { ticker := t, symbol := t, date := p.date, price := p.price,
        volume := p.volume, marketCap := p.price * v, peRatioTTM := none,
        psRatioTTM := none, pbRatioTTM := none, enterpriseValue := none,
        isInternational := true } := by
    rw [intlRow, hfind]
    simp only [hv]
    rw [if_neg hnz]
  refine ⟨h1, ?_⟩
  intro pricePoints hp
  cases pricePoints with
  | nil => cases hp
  | cons p0 ps =>
    cases ls with
    | nil => simp [closestSharesData] at hfind
    | cons s0 ls0 =>
      rw [calculateHistoricalMetrics]
      simp only [List.isEmpty_cons, if_false, if_true]
      exact List.mem_filterMap.mpr ⟨p, hp, h1⟩

/-- Witness for C7: the spec's foreign-security example — 1,000,000 shares
as of 2023-01-01, price 12.50 on 2023-03-15 gives market cap 12,500,000 and
all four ratio fields absent. -/
theorem foreign_rows_witness :
    closestSharesData [exS1] exPIntl.date = some exS1
    ∧ exS1.commonStockSharesOutstanding = some 1000000
    ∧ intlRow "Y" [exS1] exPIntl = some
        { ticker := "Y", symbol := "Y", date := 20230315, price := 25 / 2,
          volume := 300, marketCap := 12500000, peRatioTTM := none,
          psRatioTTM := none, pbRatioTTM := none, enterpriseValue := none,
          isInternational := true } := by
  refine ⟨by decide, by decide, ?_⟩
  have h := (foreign_rows "Y" [exS1] [] exPIntl exS1 1000000 (by decide)
    (by decide) (by decide)).1
  rw [h]
  norm_num [exPIntl]

/-! ### Batch orchestration (hydrateAllData) -/

/-- The per-security derivation with its internal error catch: the
`try/catch` in `calculateHistoricalMetrics` turns any thrown error into an
empty row list.  The derivation itself is abstracted as a fallible
function. -/
def calcWithCatch (derive : String → Except String (List MetricsRow))
    (ticker : String) : List MetricsRow :=
  match derive ticker with
  | Except.ok rows => rows
  | Except.error _ => []

/-- One batch of `hydrateAllData`: run the (caught) derivation for every
ticker of the batch and collect all rows in order; this list is what the
save/load step receives. -/
def processBatch (derive : String → Except String (List MetricsRow))
    (batch : List String) : List MetricsRow :=
  (batch.map (calcWithCatch derive)).flatten

/-- C8: batch isolation.  A security whose derivation throws contributes an
empty row list; every successfully derived security's rows still appear in
the batch result; and the batch result (hence what the save/load step
receives) is unchanged if the failing security is replaced by an empty
success — i.e. it consists of exactly the successful securities' rows. -/
theorem batch_isolation (derive : String → Except String (List MetricsRow))
    (batch : List String) (a e : String) (ha : derive a = Except.error e) :
    calcWithCatch derive a = []
    ∧ (∀ b rows, b ∈ batch → derive b = Except.ok rows →
        List.Sublist rows (processBatch derive batch))
    ∧ processBatch derive batch
        = processBatch
            (fun u => if u = a then Except.ok [] else derive u) batch := by
  refine ⟨?_, ?_, ?_⟩
  · rw [calcWithCatch, ha]
  · intro b rows hb hrows
    have hcb : calcWithCatch derive b = rows := by rw [calcWithCatch, hrows]
    rw [processBatch]
    exact hcb ▸ List.sublist_flatten_of_mem (List.mem_map_of_mem _ hb)
  · rw [processBatch, processBatch]
    congr 1
    apply List.map_congr_left
    intro u _
    by_cases hua : u = a
    · subst hua
      rw [calcWithCatch, ha, calcWithCatch]
      simp
    · rw [calcWithCatch, calcWithCatch]
      simp [hua]

/-- A sample successful row for the batch-isolation witness. -/
def exRowB : MetricsRow :=
  { ticker := "B", symbol := "B", date := 1, price := 1, volume := 1,
    marketCap := 1, peRatioTTM := none, psRatioTTM := none,
    pbRatioTTM := none, enterpriseValue := none, isInternational := false }

/-- A batch derivation in which security A throws and every other security
succeeds with one row. -/
def deriveEx : String → Except String (List MetricsRow) :=
  fun u => if u = "A" then Except.error "boom" else Except.ok [exRowB]

/-- Witness for C8: in the batch [A, B, C] security A throws, contributes
nothing, and B's rows survive in the batch result. -/
theorem batch_isolation_witness :
    deriveEx "A" = Except.error "boom"
    ∧ calcWithCatch deriveEx "A" = []
    ∧ List.Sublist [exRowB] (processBatch deriveEx ["A", "B", "C"]) :=
  ⟨by rfl,
    (batch_isolation deriveEx ["A", "B", "C"] "A" "boom" (by rfl)).1,
    (batch_isolation deriveEx ["A", "B", "C"] "A" "boom" (by rfl)).2.1 "B"
      [exRowB] (by decide) (by rfl)⟩

/-! ### Staging merge pipeline (PriceMetricsDataManager.mergeTempTableToMainTable) -/

/-- One row of the durable BigQuery `pricemetrics.stock_metrics` table (and
of its staging table); `date` and `lastUpdated` are opaque timestamps. -/
structure BQRow where
  ticker : String
  symbol : String
  date : Int
  price : Rat
  volume : Rat
  marketCap : Rat
  peRatioTTM : Option Rat
  psRatioTTM : Option Rat
  pbRatioTTM : Option Rat
  enterpriseValue : Option Rat
  isInternational : Bool
  lastUpdated : Int
deriving DecidableEq, Repr

/-- The merge key: `ON T.ticker = S.ticker AND T.date = S.date`. -/
def bqKey (r : BQRow) : String × Int :=
  (r.ticker, r.date)

/-- `WHEN MATCHED THEN UPDATE SET`: overwrite every non-key column of the
target row from the staging row (the column list of the merge statement;
`symbol` is not in the `UPDATE SET` list and is kept). -/
def updateNonKey (t s : BQRow) : BQRow :=
  { t with
    price := s.price
    volume := s.volume
    marketCap := s.marketCap
    peRatioTTM := s.peRatioTTM
    psRatioTTM := s.psRatioTTM
    pbRatioTTM := s.pbRatioTTM
    enterpriseValue := s.enterpriseValue
    isInternational := s.isInternational
    lastUpdated := s.lastUpdated }

/-- The effect of the merge on one target row: updated from the staging row
matching its key, if any, otherwise left untouched. -/
def mergeRow (batch : List BQRow) (t : BQRow) : BQRow :=
  match batch.find? (fun s => decide (bqKey s = bqKey t)) with
  | some s => updateNonKey t s
  | none => t

/-- The whole `MERGE` statement: every target row is updated from its
matching staging row (`WHEN MATCHED`), and every staging row without a
match in the target is inserted (`WHEN NOT MATCHED THEN INSERT`). -/
def mergeTempTableToMainTable (table batch : List BQRow) : List BQRow :=
  table.map (mergeRow batch)
    ++ batch.filter (fun s => ! table.any (fun t => decide (bqKey t = bqKey s)))

/-- Updating does not change the merge key. -/
theorem bqKey_updateNonKey (t s : BQRow) : bqKey (updateNonKey t s) = bqKey t :=
  rfl

/-- Merging one row does not change its merge key. -/
theorem bqKey_mergeRow (batch : List BQRow) (t : BQRow) :
    bqKey (mergeRow batch t) = bqKey t := by
  rw [mergeRow]
  cases batch.find? (fun s => decide (bqKey s = bqKey t)) with
  | none => rfl
  | some s => rfl

/-- Applying the same staging update twice is the same as applying it
once. -/
theorem mergeRow_mergeRow (batch : List BQRow) (t : BQRow) :
    mergeRow batch (mergeRow batch t) = mergeRow batch t := by
  cases h : batch.find? (fun s => decide (bqKey s = bqKey t)) with
  | none =>
    have hinner : mergeRow batch t = t := by rw [mergeRow, h]
    rw [hinner]
    exact hinner
  | some s =>
    have hinner : mergeRow batch t = updateNonKey t s := by rw [mergeRow, h]
    have hfind2 : batch.find?
        (fun x => decide (bqKey x = bqKey (updateNonKey t s))) = some s := by
      simpa [bqKey_updateNonKey] using h
    rw [hinner, mergeRow, hfind2]
    rfl

/-- Updating a row from itself is the identity. -/
theorem updateNonKey_self (s : BQRow) : updateNonKey s s = s :=
  rfl

/-- On a staging batch with pairwise-distinct keys, looking up a member's
key finds that member itself. -/
theorem find?_self_of_pairwise :
    ∀ (batch : List BQRow), batch.Pairwise (fun a b => bqKey a ≠ bqKey b) →
      ∀ s ∈ batch, batch.find? (fun x => decide (bqKey x = bqKey s)) = some s := by
  intro batch
  induction batch with
  | nil => intro _ s hs; cases hs
  | cons x xs ih =>
    intro hp s hs
    rcases List.pairwise_cons.mp hp with ⟨hx, hxs⟩
    rcases List.mem_cons.mp hs with hs | hs
    · subst hs
      exact List.find?_cons_of_pos _ (by simp)
    · have hne : bqKey x ≠ bqKey s := hx s hs
      rw [List.find?_cons_of_neg _ (by simpa using hne), ih hxs s hs]

/-- C2: merge idempotence.  For any durable-table state and any staging
batch with at most one row per (ticker, date), running the staging merge
twice with the same batch leaves the durable table exactly as after running
it once. -/
theorem merge_idempotent (table batch : List BQRow)
    (hB : batch.Pairwise (fun a b => bqKey a ≠ bqKey b)) :
    mergeTempTableToMainTable (mergeTempTableToMainTable table batch) batch
      = mergeTempTableToMainTable table batch := by
  have hmapT : (table.map (mergeRow batch)).map (mergeRow batch)
      = table.map (mergeRow batch) := by
    rw [List.map_map]
    apply List.map_congr_left
    intro t _
    exact mergeRow_mergeRow batch t
  have hmapF : ∀ (l : List BQRow), (∀ s ∈ l, s ∈ batch) →
      l.map (mergeRow batch) = l := by
    intro l hl
    have h1 : l.map (mergeRow batch) = l.map id := by
      apply List.map_congr_left
      intro s hs
      simp only [mergeRow, find?_self_of_pairwise batch hB s (hl s hs),
        updateNonKey_self]
      rfl
    rw [h1, List.map_id]
  have htarget : (mergeTempTableToMainTable table batch).map (mergeRow batch)
      = mergeTempTableToMainTable table batch := by
    rw [mergeTempTableToMainTable, List.map_append, hmapT,
      hmapF _ (fun s hs => List.mem_of_mem_filter hs)]
  have hfilter : batch.filter
      (fun s => ! (mergeTempTableToMainTable table batch).any
        (fun t => decide (bqKey t = bqKey s))) = [] := by
    apply List.filter_eq_nil_iff.mpr
    intro s hs hcontra
    rw [Bool.not_eq_true'] at hcontra
    have hany : (mergeTempTableToMainTable table batch).any
        (fun t => decide (bqKey t = bqKey s)) = true := by
      by_cases hT : table.any (fun t => decide (bqKey t = bqKey s)) = true
      · rcases List.any_eq_true.mp hT with ⟨t0, ht0mem, ht0⟩
        apply List.any_eq_true.mpr
        refine ⟨mergeRow batch t0, ?_, ?_⟩
        · exact List.mem_append_left _ (List.mem_map_of_mem _ ht0mem)
        · simpa [bqKey_mergeRow] using ht0
      · have hTf : table.any (fun t => decide (bqKey t = bqKey s)) = false := by
          cases hx : table.any (fun t => decide (bqKey t = bqKey s)) with
          | true => exact absurd hx hT
          | false => rfl
        have hgs : (fun s => ! table.any
            (fun t => decide (bqKey t = bqKey s))) s = true := by
          simp only [hTf]
          rfl
        apply List.any_eq_true.mpr
        refine ⟨s, ?_, by simp⟩
        exact List.mem_append_right _ (List.mem_filter.mpr ⟨hs, hgs⟩)
    simp [hany] at hcontra
  conv_lhs => rw [mergeTempTableToMainTable]
  rw [htarget, hfilter, List.append_nil]

/-- A durable row with key (X, 1). -/
def exRow1 : BQRow :=
  { ticker := "X", symbol := "X", date := 1, price := 10, volume := 100,
    marketCap := 1000, peRatioTTM := some 5, psRatioTTM := none,
    pbRatioTTM := none, enterpriseValue := none, isInternational := false,
    lastUpdated := 50 }

/-- A durable row with key (Y, 2). -/
def exRow2 : BQRow :=
  { ticker := "Y", symbol := "Y", date := 2, price := 20, volume := 200,
    marketCap := 2000, peRatioTTM := none, psRatioTTM := some 3,
    pbRatioTTM := none, enterpriseValue := none, isInternational := false,
    lastUpdated := 50 }

/-- A staging row updating key (X, 1) with new non-key values. -/
def exRow1' : BQRow :=
  { ticker := "X", symbol := "X", date := 1, price := 11, volume := 110,
    marketCap := 1100, peRatioTTM := some 6, psRatioTTM := none,
    pbRatioTTM := none, enterpriseValue := none, isInternational := false,
    lastUpdated := 60 }

/-- A staging row inserting the new key (Z, 3). -/
def exRowZ : BQRow :=
  { ticker := "Z", symbol := "Z", date := 3, price := 30, volume := 300,
    marketCap := 3000, peRatioTTM := none, psRatioTTM := none,
    pbRatioTTM := some 2, enterpriseValue := none, isInternational := false,
    lastUpdated := 60 }

/-- Witness for C2: a concrete two-row table and a two-row batch (one
update, one insert) with distinct keys; merging twice equals merging
once. -/
theorem merge_idempotent_witness :
    ([exRow1', exRowZ].Pairwise (fun a b => bqKey a ≠ bqKey b))
    ∧ mergeTempTableToMainTable
        (mergeTempTableToMainTable [exRow1, exRow2] [exRow1', exRowZ])
        [exRow1', exRowZ]
      = mergeTempTableToMainTable [exRow1, exRow2] [exRow1', exRowZ] :=
  ⟨by decide,
    merge_idempotent [exRow1, exRow2] [exRow1', exRowZ] (by decide)⟩
